import Mathlib

/-!
Verification of the linetools spectral-analysis specification against the
repository sources.  The GUI widget code (`linetools/guis/spec_widgets.py`)
is embedded directly; the spectral engine (`XSpectrum1D` and
`linetools.spectra.utils`) is not part of the sources, so its operations are
modelled from the specification text, as marked in the doc comments.

All machine floats are modelled as exact rationals (`ℚ`), NaN flux entries as
`Option ℚ` with `none` for NaN, and Python dictionaries whose keys may be
absent as `Option`-valued record fields.
-/

namespace Linetools

/-! ### Analysis flags of an absorption line (`VelPlotWidget.on_key` / `on_draw`)

The `analy` dictionary of an `AbsLine`, restricted to the four flag entries
used by `VelPlotWidget`.  A `none` field models a key that was never stored
in the dictionary (reading it raises `KeyError` in Python, which every
cited access guards with `try`/`except` and a default). -/

structure Analy where
  flag_kin : Option Int
  flg_eye : Option Int
  do_analysis : Option Int
  flg_limit : Option Int
  deriving DecidableEq

/-- Key `'^'` (low-ion kinematics) of `VelPlotWidget.on_key`:
`fkin += (-1)**(fkin % 2**1 >= 2**0) * 2**0` with `fkin` defaulting to 0
when `'flag_kin'` is absent. -/
def keyLowIon (a : Analy) : Analy :=
  let fkin : Int := a.flag_kin.getD 0
  let fkin' : Int := fkin + (if fkin % 2 ≥ 1 then -1 else 1) * 1
  { a with flag_kin := some fkin' }

/-- Key `'&'` (high-ion kinematics) of `VelPlotWidget.on_key`:
`fkin += (-1)**(fkin % 2**2 >= 2**1) * 2**1`. -/
def keyHighIon (a : Analy) : Analy :=
  let fkin : Int := a.flag_kin.getD 0
  let fkin' : Int := fkin + (if fkin % 4 ≥ 2 then -1 else 1) * 2
  { a with flag_kin := some fkin' }

/-- Key `'B'` (toggle blend) of `VelPlotWidget.on_key`:
`feye = (feye + 1) % 2` with `feye` defaulting to 0. -/
def keyBlend (a : Analy) : Analy :=
  let feye : Int := a.flg_eye.getD 0
  { a with flg_eye := some ((feye + 1) % 2) }

/-- Key `'N'` (toggle do/do-not analyze) of `VelPlotWidget.on_key`:
`fanly` defaults to 1 when `'do_analysis'` is absent, then flips 0 ↔ 1. -/
def keyToggleNG (a : Analy) : Analy :=
  let fanly : Int := a.do_analysis.getD 1
  { a with do_analysis := some (if fanly = 0 then 1 else 0) }

/-- Keys `'V'`/`'L'`/`'U'` of `VelPlotWidget.on_key`: set `flg_limit`
to 1 (normal), 2 (lower limit) or 3 (upper limit). -/
def keyLimit (v : Int) (a : Analy) : Analy :=
  { a with flg_limit := some v }

/-- Low-ion kinematic bit as read by `VelPlotWidget`
(`absline.analy['flag_kin'] % 2 >= 1`, key absent defaulting to 0). -/
def readKinLow (a : Analy) : Prop := 1 ≤ a.flag_kin.getD 0 % 2

/-- High-ion kinematic bit as read by `VelPlotWidget`
(`absline.analy['flag_kin'] % 4 >= 2`, key absent defaulting to 0). -/
def readKinHigh (a : Analy) : Prop := 2 ≤ a.flag_kin.getD 0 % 4

/-- The `do_analysis` flag as read in `on_key` (`try`/`except` with default 1,
the "include in analysis" value). -/
def readDoAnalysis (a : Analy) : Int := a.do_analysis.getD 1

/-- Blend flag as read in `on_key` (`try`/`except` with default 0). -/
def readBlend (a : Analy) : Int := a.flg_eye.getD 0

/-- The `analy` dictionary of a line on which no flag key was ever stored. -/
def unsetAnaly : Analy := ⟨none, none, none, none⟩

/-- Claim C9: the analysis flags of an absorption line are independent bits.
Toggling the low-ion kinematic bit (key `'^'`) or the high-ion bit (key `'&'`)
flips exactly that bit and leaves the other kinematic bit and every other flag
unchanged; the blend, do-analysis and limit-type keys each touch only their own
entry; and reading a flag that was never stored yields the include/normal
default (`do_analysis` reads as 1 = include, both kinematic bits read as 0,
blend reads as 0) instead of failing. -/
theorem analy_flags_independent :
    (∀ a : Analy,
      ((readKinLow (keyLowIon a) ↔ ¬ readKinLow a) ∧
        (readKinHigh (keyLowIon a) ↔ readKinHigh a) ∧
        (keyLowIon a).flg_eye = a.flg_eye ∧
        (keyLowIon a).do_analysis = a.do_analysis ∧
        (keyLowIon a).flg_limit = a.flg_limit) ∧
      ((readKinHigh (keyHighIon a) ↔ ¬ readKinHigh a) ∧
        (readKinLow (keyHighIon a) ↔ readKinLow a) ∧
        (keyHighIon a).flg_eye = a.flg_eye ∧
        (keyHighIon a).do_analysis = a.do_analysis ∧
        (keyHighIon a).flg_limit = a.flg_limit) ∧
      ((keyBlend a).flag_kin = a.flag_kin ∧
        (keyBlend a).do_analysis = a.do_analysis ∧
        (keyBlend a).flg_limit = a.flg_limit) ∧
      ((keyToggleNG a).flag_kin = a.flag_kin ∧
        (keyToggleNG a).flg_eye = a.flg_eye ∧
        (keyToggleNG a).flg_limit = a.flg_limit) ∧
      (∀ v : Int,
        (keyLimit v a).flag_kin = a.flag_kin ∧
        (keyLimit v a).flg_eye = a.flg_eye ∧
        (keyLimit v a).do_analysis = a.do_analysis)) ∧
    ¬ readKinLow unsetAnaly ∧ ¬ readKinHigh unsetAnaly ∧
    readDoAnalysis unsetAnaly = 1 ∧ readBlend unsetAnaly = 0 := by
  refine ⟨fun a => ⟨⟨?_, ?_, rfl, rfl, rfl⟩, ⟨?_, ?_, rfl, rfl, rfl⟩,
    ⟨rfl, rfl, rfl⟩, ⟨rfl, rfl, rfl⟩, fun v => ⟨rfl, rfl, rfl⟩⟩, ?_, ?_, rfl, rfl⟩
  · simp only [readKinLow, keyLowIon, Option.getD_some]
    split <;> rename_i h <;> constructor <;> intro h' <;> omega
  · simp only [readKinHigh, keyLowIon, Option.getD_some]
    split <;> rename_i h <;> constructor <;> intro h' <;> omega
  · simp only [readKinHigh, keyHighIon, Option.getD_some]
    split <;> rename_i h <;> constructor <;> intro h' <;> omega
  · simp only [readKinLow, keyHighIon, Option.getD_some]
    split <;> rename_i h <;> constructor <;> intro h' <;> omega
  · simp only [readKinLow, unsetAnaly, Option.getD_none]
    omega
  · simp only [readKinHigh, unsetAnaly, Option.getD_none]
    omega

/-! ### Two-click analysis of `ExamineSpecWidget.on_key` (keys `'N'`, `'E'`, `'$'`, `'G'`)

The second click triggers
`iwv = np.array(sorted([wv_1, wv_2]))`, `ic = np.array(sorted([C_1, C_2]))`,
a degree-1 `polyfit` through the two sorted points, the local continuum
evaluated over the wavelength array, the pixel window `pix_minmax(iwv)`, and
then the per-key outputs (stats, Gaussian-fit seeds, EW, AODM velocity
limits).  Everything downstream is a function of the sorted pairs and of
`abs(wv_1 - wv_2)` only. -/

/-- Python `sorted([a, b])` for the two-element Python lists of `on_key`. -/
def sortPair (a b : ℚ) : ℚ × ℚ := (min a b, max a b)

/-- Arithmetic mean of a list (`np.mean`). -/
def listMean (l : List ℚ) : ℚ := l.sum / l.length

/-- Median as `np.median`: midpoint of the two middle entries of the sorted list. -/
def listMedian (l : List ℚ) : ℚ :=
  let s := l.mergeSort (fun a b => decide (a ≤ b))
  (s.getD ((l.length - 1) / 2) 0 + s.getD (l.length / 2) 0) / 2

/-- Variance, i.e. `np.std(l)` squared: mean squared deviation from the mean. -/
def listVar (l : List ℚ) : ℚ := listMean (l.map (fun x => (x - listMean l) ^ 2))

/-- Modelled from the spec: `pix_minmax(wavelength_range)` of the spectrum
container is not in the sources; per §4.1 it returns the index range covering
the closed wavelength interval, clipped to valid pixels. -/
def pix_minmax (wave : List ℚ) (lo hi : ℚ) : List ℕ :=
  (List.range wave.length).filter (fun k => decide (lo ≤ wave.getD k 0 ∧ wave.getD k 0 ≤ hi))

/-- c in km/s, as `const.c.to('km/s')`. -/
def ckms : ℚ := 299792458 / 1000

/-- Everything the keys `'$'`, `'G'`, `'N'`, `'E'` derive from the two
clicks: the sorted pairs, the linear local continuum, the pixel window, the
`'$'` statistics (mean, median, variance of `flux - lconti`), the `'G'`
Gaussian-fit inputs (EW sum, amplitude/center/width guesses), the `'N'`
velocity limits and the locally normalized flux handed to `measure_aodm` /
`measure_restew`. -/
structure ClickAnalysis where
  iwv : ℚ × ℚ
  ic : ℚ × ℚ
  slope : ℚ
  intercept : ℚ
  lconti : List ℚ
  pix : List ℕ
  statMean : ℚ
  statMedian : ℚ
  statVar : ℚ
  ew : ℚ
  aguess : ℚ
  cguess : ℚ
  sguess : ℚ
  vlim : ℚ × ℚ
  normFlux : List ℚ
  deriving DecidableEq

/-- The analysis pipeline of `ExamineSpecWidget.on_key` lines 255–354, as a
function of the sorted wavelength pair `iwv`, the sorted continuum pair `ic`
and the width guess `sg` (the only place the raw click order could leak in). -/
def analysisFrom (wave flux : List ℚ) (z wrest : ℚ) (iwv ic : ℚ × ℚ) (sg : ℚ) :
    ClickAnalysis :=
  let m := (ic.2 - ic.1) / (iwv.2 - iwv.1)
  let b := ic.1 - m * iwv.1
  let lconti := wave.map (fun w => m * w + b)
  let pix := pix_minmax wave iwv.1 iwv.2
  let fpix := pix.map (fun k => flux.getD k 0)
  let lpix := pix.map (fun k => lconti.getD k 0)
  let wpix := pix.map (fun k => wave.getD k 0)
  { iwv := iwv
    ic := ic
    slope := m
    intercept := b
    lconti := lconti
    pix := pix
    statMean := listMean fpix
    statMedian := listMedian fpix
    statVar := listVar (List.zipWith (fun f l => f - l) fpix lpix)
    ew := (List.zipWith (fun l f => l - f) lpix fpix).sum
    aguess := (List.zipWith (fun f l => f - l) fpix lpix).foldl max 0
    cguess := listMean wpix
    sguess := sg
    vlim := (ckms * (iwv.1 / (1 + z) - wrest) / wrest,
             ckms * (iwv.2 / (1 + z) - wrest) / wrest)
    normFlux := List.zipWith (fun f l => f / l) flux lconti }

/-- The two-click analysis: click one stores `(wv_1, C_1)`, click two stores
`(wv_2, C_2)` and computes the outputs from the sorted pairs, with
`sguess = 0.1 * np.abs(wv_1 - wv_2)`. -/
def twoClickAnalysis (wave flux : List ℚ) (z wrest : ℚ)
    (wv1 c1 wv2 c2 : ℚ) : ClickAnalysis :=
  analysisFrom wave flux z wrest (sortPair wv1 wv2) (sortPair c1 c2)
    ((1 / 10) * |wv1 - wv2|)

/-- Claim C10: in the two-click analysis of `ExamineSpecWidget` (keys `'N'`,
`'E'`, `'$'`, `'G'`), the two clicked wavelengths and the two clicked
continuum values are each sorted before the window and the linear local
continuum are computed, so the pixel window, fitted continuum, and every
EW/AODM/statistics output are identical regardless of which point was
clicked first. -/
theorem twoClickAnalysis_comm (wave flux : List ℚ) (z wrest : ℚ)
    (wv1 c1 wv2 c2 : ℚ) :
    twoClickAnalysis wave flux z wrest wv1 c1 wv2 c2 =
      twoClickAnalysis wave flux z wrest wv2 c2 wv1 c1 := by
  unfold twoClickAnalysis
  rw [show sortPair wv2 wv1 = sortPair wv1 wv2 by
        simp [sortPair, min_comm, max_comm],
      show sortPair c2 c1 = sortPair c1 c2 by
        simp [sortPair, min_comm, max_comm],
      abs_sub_comm wv2 wv1]

/-! ### Continuum normalization (spec §4.1, test `test_continuum_utils`) -/

/-- A spectrum as seen by `normalize`/`unnormalize`: per-pixel flux and
uncertainty, an optionally attached continuum, and the `normed` flag. -/
structure NSpec where
  flux : List ℚ
  sig : List ℚ
  co : Option (List ℚ)
  normed : Bool
  deriving DecidableEq

/-- Modelled from the spec: `XSpectrum1D.normalize` is not in the sources;
per §4.1 it "divides flux and sigma by the given per-pixel continuum and sets
`normalized=True`", attaching the continuum. -/
def normalize (c : List ℚ) (s : NSpec) : NSpec :=
  { flux := List.zipWith (fun f v => f / v) s.flux c
    sig := List.zipWith (fun f v => f / v) s.sig c
    co := some c
    normed := true }

/-- Modelled from the spec: `XSpectrum1D.unnormalize` is not in the sources;
per §4.1 it is the exact inverse of `normalize` while the same continuum is
still attached, multiplying flux and sigma back and clearing the flag. -/
def unnormalize (s : NSpec) : NSpec :=
  match s.co, s.normed with
  | some c, true =>
      { flux := List.zipWith (fun f v => f * v) s.flux c
        sig := List.zipWith (fun f v => f * v) s.sig c
        co := some c
        normed := false }
  | _, _ => s

lemma zipWith_div_mul_cancel :
    ∀ (f c : List ℚ), c.length = f.length → (∀ v ∈ c, v ≠ 0) →
      List.zipWith (fun f v => f * v) (List.zipWith (fun f v => f / v) f c) c = f
  | [], [], _, _ => rfl
  | x :: f, v :: c, hl, hc => by
      have hv : v ≠ 0 := hc v (List.mem_cons_self v c)
      simp only [List.zipWith_cons_cons, List.cons.injEq]
      exact ⟨div_mul_cancel₀ x hv,
        zipWith_div_mul_cancel f c (by simpa using hl)
          (fun w hw => hc w (List.mem_cons_of_mem v hw))⟩

/-- Claim C4: for every spectrum with an everywhere nonzero per-pixel
continuum `c` matching the array lengths, `normalize(c)` followed by
`unnormalize()` restores the original flux (and sigma) exactly and clears the
`normalized` flag, the same continuum still being attached in between. -/
theorem normalize_unnormalize_roundtrip (s : NSpec) (c : List ℚ)
    (hf : c.length = s.flux.length) (hs : c.length = s.sig.length)
    (hc : ∀ v ∈ c, v ≠ 0) :
    (unnormalize (normalize c s)).flux = s.flux ∧
    (unnormalize (normalize c s)).sig = s.sig ∧
    (unnormalize (normalize c s)).normed = false := by
  have hco : (normalize c s).co = some c := rfl
  have hn : (normalize c s).normed = true := rfl
  refine ⟨?_, ?_, ?_⟩ <;>
    simp only [unnormalize, normalize] <;>
    simp [zipWith_div_mul_cancel _ _ hf hc, zipWith_div_mul_cancel _ _ hs hc]

/-- Witness for C4 at a concrete spectrum and continuum. -/
theorem normalize_unnormalize_roundtrip_witness :
    (unnormalize (normalize [2, 4] ⟨[1, 3], [5, 7], none, false⟩)).flux = [1, 3] ∧
    (unnormalize (normalize [2, 4] ⟨[1, 3], [5, 7], none, false⟩)).sig = [5, 7] ∧
    (unnormalize (normalize [2, 4] ⟨[1, 3], [5, 7], none, false⟩)).normed = false :=
  normalize_unnormalize_roundtrip ⟨[1, 3], [5, 7], none, false⟩ [2, 4]
    rfl rfl (by decide)

/-! ### Continuum model (spec §4.4, test `test_continuum_utils`) -/

/-- A spectrum as seen by the continuum model: wavelength grid, current
continuum, and the stored control points (`meta['contpoints']`). -/
structure ContSpec where
  wave : List ℚ
  co : List ℚ
  contpoints : List (ℚ × ℚ)
  deriving DecidableEq

/-- Modelled from the spec: `_interp_continuum`'s interpolation kernel is not
in the sources; per §4.4 it interpolates smoothly through the sparse control
points and holds the boundary value constant beyond the outermost points.
Piecewise-linear interpolation through consecutive control points. -/
def interpAt : List (ℚ × ℚ) → ℚ → ℚ
  | [], _ => 0
  | [p], _ => p.2
  | p :: q :: rest, x =>
      if x ≤ p.1 then p.2
      else if x ≤ q.1 then p.2 + (q.2 - p.2) * (x - p.1) / (q.1 - p.1)
      else interpAt (q :: rest) x

/-- Modelled from the spec: `interp_continuum(x_control, y_control, grid)`
(§4.4) builds the continuum curve over the full wavelength grid from the
control points. -/
def interp_continuum (pts : List (ℚ × ℚ)) (grid : List ℚ) : List ℚ :=
  grid.map (interpAt pts)

/-- A deterministic per-pixel noise stream: linear congruential generator
iterated from the seed. -/
def lcg (n : ℕ) : ℕ := (1103515245 * n + 12345) % 2 ^ 31

/-- Noise value in `[-1, 1]` for pixel `i` of stream `seed`. -/
def noiseAt (seed i : ℕ) : ℚ :=
  ((lcg (seed + 7919 * i) : ℚ) / 2 ^ 30) - 1

/-- Modelled from the spec: `perturb_continuum(rel_var, seed)` is not in the
sources; per §4.4 it multiplies the continuum by `1 + noise`, the noise drawn
per-pixel from a distribution scaled by `rel_var`, deterministic given
`seed`.  Control points and grid are untouched. -/
def perturb_continuum (relVar : ℚ) (seed : ℕ) (s : ContSpec) : ContSpec :=
  { s with co := s.co.mapIdx (fun i v => v * (1 + relVar * noiseAt seed i)) }

/-- Modelled from the spec: `reset_continuum()` recomputes the continuum from
the stored control points, discarding any perturbation (§4.4). -/
def reset_continuum (s : ContSpec) : ContSpec :=
  { s with co := interp_continuum s.contpoints s.wave }

/-- Any finite sequence of `perturb_continuum` calls, given as
`(rel_var, seed)` pairs applied in order. -/
def perturbMany (ps : List (ℚ × ℕ)) (s : ContSpec) : ContSpec :=
  ps.foldl (fun t p => perturb_continuum p.1 p.2 t) s

lemma perturbMany_wave_contpoints (ps : List (ℚ × ℕ)) :
    ∀ s : ContSpec, (perturbMany ps s).wave = s.wave ∧
      (perturbMany ps s).contpoints = s.contpoints := by
  induction ps with
  | nil => exact fun s => ⟨rfl, rfl⟩
  | cons p ps ih =>
      intro s
      simpa [perturbMany, perturb_continuum] using ih _

/-- Claim C7: after any number of intervening `perturb_continuum` calls,
`reset_continuum()` recomputes the continuum from the stored control points
and exactly reproduces the continuum `interp_continuum` yields on the
original control points (the pre-perturbation continuum). -/
theorem reset_continuum_after_perturb (s : ContSpec) (ps : List (ℚ × ℕ)) :
    (reset_continuum (perturbMany ps s)).co =
      interp_continuum s.contpoints s.wave := by
  obtain ⟨hw, hc⟩ := perturbMany_wave_contpoints ps s
  simp [reset_continuum, hw, hc]

/-! ### Batch collation (spec §4.5, test `test_collate`) -/

/-- A single spectrum of a batch: its own wavelength grid and flux. -/
structure MSpec where
  wave : List ℚ
  flux : List ℚ
  deriving DecidableEq

/-- Pixel count of one spectrum. -/
def npix (s : MSpec) : ℕ := s.wave.length

/-- Largest pixel count over a batch (the padded row width). -/
def maxpix (l : List MSpec) : ℕ := l.foldl (fun m s => max m (npix s)) 0

/-- One padded row of the collated rectangular array: the spectrum's own
pixels marked valid (`some`), the padding masked out (`none`). -/
def padRow (n : ℕ) (s : MSpec) : List (Option ℚ) :=
  s.wave.map some ++ List.replicate (n - npix s) none

/-- Modelled from the spec: `collate(list_of_spectra)` is not in the sources;
per §4.5 it builds a batch preserving each spectrum's own grid, as a
rectangular masked array whose row `i` holds spectrum `i`'s pixels. -/
def collate (l : List MSpec) : List (List (Option ℚ)) :=
  l.map (padRow (maxpix l))

/-- The `nspec` of a collated batch: number of rows. -/
def nspec (rows : List (List (Option ℚ))) : ℕ := rows.length

/-- The `totpix` of a collated batch: total number of valid (unmasked) pixels. -/
def totpix (rows : List (List (Option ℚ))) : ℕ :=
  (rows.map (fun r => (r.filter Option.isSome).length)).sum

lemma padRow_valid_length (n : ℕ) (s : MSpec) :
    ((padRow n s).filter Option.isSome).length = npix s := by
  have h1 : (s.wave.map some).filter Option.isSome = s.wave.map some := by
    induction s.wave with
    | nil => rfl
    | cons a t ih => simp [List.filter_cons, Option.isSome, ih]
  have h2 : (List.replicate (n - npix s) (none : Option ℚ)).filter Option.isSome
      = [] := by
    induction n - npix s with
    | zero => rfl
    | succ k ih => simp [List.replicate_succ, List.filter_cons, Option.isSome, ih]
  simp [padRow, List.filter_append, h1, h2, npix]

/-- Claim C6: `collate` builds a batch preserving each spectrum's own grid
whose `totpix` equals the sum of the per-spectrum valid pixel counts; in
particular `collate [A, B]` has `totpix = npix A + npix B` and two rows, and
the concrete scenario of two spectra with 10206 and 10173 pixels yields
`totpix = 20379`. -/
theorem collate_totpix :
    (∀ l : List MSpec, totpix (collate l) = (l.map npix).sum ∧
      nspec (collate l) = l.length) ∧
    (∀ a b : MSpec, totpix (collate [a, b]) = npix a + npix b) ∧
    totpix (collate [⟨List.replicate 10206 0, []⟩, ⟨List.replicate 10173 0, []⟩])
      = 20379 := by
  have key : ∀ l : List MSpec, totpix (collate l) = (l.map npix).sum := by
    intro l
    simp only [totpix, collate, List.map_map]
    congr 1
    exact List.map_congr_left (fun s _ => padRow_valid_length (maxpix l) s)
  refine ⟨fun l => ⟨key l, by simp [nspec, collate]⟩, fun a b => by simp [key], ?_⟩
  rw [key]
  simp only [List.map_cons, List.map_nil, npix, List.length_replicate,
    List.sum_cons, List.sum_nil]
  norm_num

/-! ### Flux-density conserving rebinning (spec §4.2, tests `test_rebin`)

Modelled from the spec: `XSpectrum1D.rebin` is not in the sources.  Per §4.2
it computes the cumulative integrated flux over the original grid and
differentiates it over the new grid's pixel edges; a pixel's edges are the
midpoints to its neighbours (half a pixel beyond the boundary wavelengths at
the ends); NaN flux pixels (modelled as `none`) are excluded from the
integration, i.e. enter with zero weight. -/

/-- Interior and upper pixel edges for the wavelengths `x :: l`
(the lower edge of pixel `x` having been emitted already):
midpoints of consecutive wavelengths, then half a pixel beyond the last. -/
def innerEdges (x : ℚ) : List ℚ → List ℚ
  | [] => [x]
  | [y] => [(x + y) / 2, y + (y - x) / 2]
  | y :: z :: rest => (x + y) / 2 :: innerEdges y (z :: rest)

/-- All pixel edges of a wavelength grid (one more edge than pixels). -/
def edges : List ℚ → List ℚ
  | [] => []
  | [x] => [x, x]
  | x :: y :: rest => (x - (y - x) / 2) :: innerEdges x (y :: rest)

/-- Cumulative integrated flux up to wavelength `x`: each pixel `[lo, hi)` of
the edge list contributes its flux density times its overlap with `(-∞, x]`,
a NaN (`none`) flux contributing zero weight. -/
def cumAt (es : List ℚ) (f : List (Option ℚ)) (x : ℚ) : ℚ :=
  (((es.zip es.tail).zip f).map
    (fun p => p.2.getD 0 * max 0 (min x p.1.2 - p.1.1))).sum

/-- Flux density of one rebinned pixel with edges `[a, b]`: the cumulative
flux differentiated over the new pixel's edges. -/
def rebinAt (es : List ℚ) (f : List (Option ℚ)) (a b : ℚ) : ℚ :=
  (cumAt es f b - cumAt es f a) / (b - a)

/-- Rebinning onto a new edge list. -/
def rebinE (es : List ℚ) (f : List (Option ℚ)) (nes : List ℚ) : List ℚ :=
  (nes.zip nes.tail).map (fun p => rebinAt es f p.1 p.2)

/-- The operation `rebin(new_wavelength_grid)`: flux-density conserving reinterpolation of
`f` from the wavelength grid `w` onto the grid `nw`. -/
def rebin (w : List ℚ) (f : List (Option ℚ)) (nw : List ℚ) : List ℚ :=
  rebinE (edges w) f (edges nw)

/-- Total integrated flux of a spectrum over an edge list:
sum of flux density times pixel width. -/
def totalFluxE (es : List ℚ) (fl : List ℚ) : ℚ :=
  (((es.zip es.tail).zip fl).map (fun p => p.2 * (p.1.2 - p.1.1))).sum

/-- Total integrated flux of a spectrum on wavelength grid `w`. -/
def totalFlux (w : List ℚ) (fl : List ℚ) : ℚ := totalFluxE (edges w) fl

lemma innerEdges_length : ∀ (l : List ℚ) (x : ℚ),
    (innerEdges x l).length = l.length + 1
  | [], _ => rfl
  | [_], _ => rfl
  | y :: z :: t, x => by
      simp [innerEdges, innerEdges_length (z :: t) y]

lemma edges_length : ∀ w : List ℚ, w ≠ [] → (edges w).length = w.length + 1
  | [_], _ => rfl
  | _ :: _ :: _, _ => by simp [edges, innerEdges_length]

lemma headD_irrel (l : List ℚ) (h : l ≠ []) (d d' : ℚ) : l.headD d = l.headD d' := by
  cases l with
  | nil => exact absurd rfl h
  | cons a t => rfl

lemma getLastD_irrel (l : List ℚ) (h : l ≠ []) (d d' : ℚ) :
    l.getLastD d = l.getLastD d' := by
  cases l with
  | nil => exact absurd rfl h
  | cons a t => rw [List.getLastD_cons, List.getLastD_cons]

lemma innerEdges_chain : ∀ (l : List ℚ) (x : ℚ), (x :: l).Chain' (· < ·) → l ≠ [] →
    (innerEdges x l).Chain' (· < ·) ∧
    (innerEdges x l).head? = some ((x + l.headD 0) / 2)
  | [], _, _, h => absurd rfl h
  | [y], x, hc, _ => by
      have hxy : x < y := (List.chain'_cons.mp hc).1
      refine ⟨?_, rfl⟩
      rw [innerEdges, List.chain'_cons]
      exact ⟨by linarith, List.chain'_singleton _⟩
  | y :: z :: t, x, hc, _ => by
      have hxy : x < y := (List.chain'_cons.mp hc).1
      have hyz : y < z := (List.chain'_cons.mp (List.chain'_cons.mp hc).2).1
      obtain ⟨ih1, ih2⟩ :=
        innerEdges_chain (z :: t) y (List.chain'_cons.mp hc).2 (by simp)
      refine ⟨?_, rfl⟩
      rw [innerEdges, List.chain'_cons']
      refine ⟨?_, ih1⟩
      intro h hh
      rw [ih2] at hh
      simp only [Option.mem_def, Option.some.injEq] at hh
      subst hh
      simp only [List.headD_cons]
      linarith

lemma edges_chain (w : List ℚ) (hw : w.Chain' (· < ·)) (h2 : 2 ≤ w.length) :
    (edges w).Chain' (· < ·) := by
  match w, h2 with
  | x :: y :: rest, _ =>
    have hxy : x < y := (List.chain'_cons.mp hw).1
    obtain ⟨ih1, ih2⟩ := innerEdges_chain (y :: rest) x hw (by simp)
    rw [edges, List.chain'_cons']
    refine ⟨?_, ih1⟩
    intro h hh
    rw [ih2] at hh
    simp only [Option.mem_def, Option.some.injEq] at hh
    subst hh
    simp only [List.headD_cons]
    linarith

lemma chain'_headD_lt_getLastD : ∀ l : List ℚ, l.Chain' (· < ·) → 2 ≤ l.length →
    l.headD 0 < l.getLastD 0
  | [], _, h2 => by simp at h2
  | [_], _, h2 => by simp at h2
  | a :: b :: t, h, _ => by
      have hab : a < b := (List.chain'_cons.mp h).1
      cases t with
      | nil => simpa [List.getLastD_cons] using hab
      | cons e t' =>
          have ih := chain'_headD_lt_getLastD (b :: e :: t')
            (List.chain'_cons.mp h).2 (by simp)
          simp only [List.headD_cons, List.getLastD_cons] at ih ⊢
          exact lt_trans hab ih

lemma cumAt_nil (f : List (Option ℚ)) (p : ℚ) : cumAt [] f p = 0 := by
  simp [cumAt]

lemma cumAt_single (e : ℚ) (f : List (Option ℚ)) (p : ℚ) : cumAt [e] f p = 0 := by
  simp [cumAt]

lemma cumAt_fnil (es : List ℚ) (p : ℚ) : cumAt es [] p = 0 := by
  simp [cumAt]

lemma cumAt_cons (e1 e2 : ℚ) (t : List ℚ) (x : Option ℚ) (fs : List (Option ℚ))
    (p : ℚ) :
    cumAt (e1 :: e2 :: t) (x :: fs) p
      = x.getD 0 * max 0 (min p e2 - e1) + cumAt (e2 :: t) fs p := by
  simp [cumAt]

/-- Telescoping: the total integrated flux of the rebinned spectrum over the
whole new edge list is the cumulative original flux between the outermost new
edges. -/
lemma totalFluxE_rebinE (es : List ℚ) (f : List (Option ℚ)) :
    ∀ nes : List ℚ, nes.Chain' (· < ·) →
      totalFluxE nes (rebinE es f nes)
        = cumAt es f (nes.getLastD 0) - cumAt es f (nes.headD 0) := by
  intro nes
  induction nes with
  | nil => intro _; simp [totalFluxE, rebinE]
  | cons a rest ih =>
      cases rest with
      | nil => intro _; simp [totalFluxE, rebinE]
      | cons b t =>
          intro h
          have hab : a < b := (List.chain'_cons.mp h).1
          have ihe := ih (List.chain'_cons.mp h).2
          have step : totalFluxE (a :: b :: t) (rebinE es f (a :: b :: t))
              = rebinAt es f a b * (b - a)
                + totalFluxE (b :: t) (rebinE es f (b :: t)) := by
            simp [totalFluxE, rebinE]
          rw [step, ihe, rebinAt, div_mul_cancel₀ _ (sub_ne_zero.mpr hab.ne')]
          simp only [List.headD_cons, List.getLastD_cons]
          ring

/-- Cumulative flux of a flat spectrum: linear in the evaluation point,
clamped to the edge span. -/
lemma cumAt_flat (c x : ℚ) : ∀ es : List ℚ, es.Chain' (· ≤ ·) →
    cumAt es (List.replicate (es.length - 1) (some c)) x
      = c * (max (es.headD x) (min x (es.getLastD x)) - es.headD x)
    ∧ es.headD x ≤ es.getLastD x
  | [], _ => by
      refine ⟨?_, le_refl _⟩
      simp [cumAt]
  | [e], _ => by
      refine ⟨?_, by simp [List.getLastD_cons]⟩
      rw [cumAt_single]
      simp only [List.headD_cons, List.getLastD_cons, List.getLastD_nil]
      rw [max_eq_left (min_le_right x e)]
      ring
  | e1 :: e2 :: t, h => by
      have h12 : e1 ≤ e2 := (List.chain'_cons.mp h).1
      obtain ⟨ihEq, ihLe⟩ := cumAt_flat c x (e2 :: t) (List.chain'_cons.mp h).2
      simp only [List.headD_cons, List.getLastD_cons] at ihEq ihLe ⊢
      have hstep : cumAt (e1 :: e2 :: t)
          (List.replicate ((e1 :: e2 :: t).length - 1) (some c)) x
          = c * max 0 (min x e2 - e1)
            + cumAt (e2 :: t) (List.replicate ((e2 :: t).length - 1) (some c)) x := by
        simp only [List.length_cons, Nat.add_sub_cancel, List.replicate_succ]
        rw [cumAt_cons]
        simp
      refine ⟨?_, le_trans h12 ihLe⟩
      rw [hstep, ihEq]
      have key : max 0 (min x e2 - e1) + (max e2 (min x (t.getLastD e2)) - e2)
          = max e1 (min x (t.getLastD e2)) - e1 := by
        simp only [min_def, max_def]
        split_ifs <;> linarith
      rw [← key]
      ring

/-- Claim C1: for every spectrum and every monotonic target wavelength grid
whose edges lie wholly inside the original edge range, `rebin` performs
flux-density-conserving interpolation (cumulative integrated flux over the
original grid, differentiated over the new grid's pixel edges): for a flat
flux input the total integrated flux of the rebinned spectrum equals the
integrated original flux over the same range exactly, so in particular the
two differ by less than 0.1%. -/
theorem rebin_flux_conserving (w nw : List ℚ) (c : ℚ)
    (hw : w.Chain' (· < ·)) (hw2 : 2 ≤ w.length)
    (hn : nw.Chain' (· < ·)) (hn2 : 2 ≤ nw.length)
    (hc : 0 < c)
    (hlo : (edges w).headD 0 ≤ (edges nw).headD 0)
    (hhi : (edges nw).getLastD 0 ≤ (edges w).getLastD 0) :
    totalFlux nw (rebin w (List.replicate w.length (some c)) nw)
        = cumAt (edges w) (List.replicate w.length (some c))
            ((edges nw).getLastD 0)
          - cumAt (edges w) (List.replicate w.length (some c))
            ((edges nw).headD 0)
      ∧ 0 < cumAt (edges w) (List.replicate w.length (some c))
            ((edges nw).getLastD 0)
          - cumAt (edges w) (List.replicate w.length (some c))
            ((edges nw).headD 0)
      ∧ |totalFlux nw (rebin w (List.replicate w.length (some c)) nw)
          - (cumAt (edges w) (List.replicate w.length (some c))
              ((edges nw).getLastD 0)
            - cumAt (edges w) (List.replicate w.length (some c))
              ((edges nw).headD 0))|
        < (1 / 1000)
          * (cumAt (edges w) (List.replicate w.length (some c))
              ((edges nw).getLastD 0)
            - cumAt (edges w) (List.replicate w.length (some c))
              ((edges nw).headD 0)) := by
  have hwne : w ≠ [] := by intro h; rw [h] at hw2; simp at hw2
  have hnne : nw ≠ [] := by intro h; rw [h] at hn2; simp at hn2
  have hene : (edges nw).Chain' (· < ·) := edges_chain nw hn hn2
  have hew : (edges w).Chain' (· < ·) := edges_chain w hw hw2
  have hlen : (edges w).length = w.length + 1 := edges_length w hwne
  have hlenn : (edges nw).length = nw.length + 1 := edges_length nw hnne
  have hewne : edges w ≠ [] := by
    intro h; rw [h] at hlen; simp at hlen
  have henne : edges nw ≠ [] := by
    intro h; rw [h] at hlenn; simp at hlenn
  set ne0 := (edges nw).headD 0 with hne0
  set neL := (edges nw).getLastD 0 with hneL
  have hne : ne0 < neL :=
    chain'_headD_lt_getLastD (edges nw) hene (by omega)
  have hflat : List.replicate w.length (some c)
      = List.replicate ((edges w).length - 1) (some c) := by
    rw [hlen, Nat.add_sub_cancel]
  have htel : totalFlux nw (rebin w (List.replicate w.length (some c)) nw)
      = cumAt (edges w) (List.replicate w.length (some c)) neL
        - cumAt (edges w) (List.replicate w.length (some c)) ne0 :=
    totalFluxE_rebinE (edges w) (List.replicate w.length (some c)) (edges nw) hene
  obtain ⟨hcum1, hle1⟩ := cumAt_flat c neL (edges w) (hew.imp (fun a b h => le_of_lt h))
  obtain ⟨hcum2, _⟩ := cumAt_flat c ne0 (edges w) (hew.imp (fun a b h => le_of_lt h))
  rw [← hflat] at hcum1 hcum2
  rw [headD_irrel (edges w) hewne neL 0] at hcum1 hle1
  rw [getLastD_irrel (edges w) hewne neL 0] at hcum1 hle1
  rw [headD_irrel (edges w) hewne ne0 0] at hcum2
  rw [getLastD_irrel (edges w) hewne ne0 0] at hcum2
  have h1 : (edges w).headD 0 ≤ ne0 := hlo
  have h2 : neL ≤ (edges w).getLastD 0 := hhi
  have hmax1 : max ((edges w).headD 0) (min neL ((edges w).getLastD 0)) = neL := by
    rw [min_eq_left h2]
    exact max_eq_right (le_trans h1 (le_of_lt hne))
  have hmax2 : max ((edges w).headD 0) (min ne0 ((edges w).getLastD 0)) = ne0 := by
    rw [min_eq_left (le_trans (le_of_lt hne) h2)]
    exact max_eq_right h1
  rw [hmax1] at hcum1
  rw [hmax2] at hcum2
  have hbefore : cumAt (edges w) (List.replicate w.length (some c)) neL
      - cumAt (edges w) (List.replicate w.length (some c)) ne0
      = c * (neL - ne0) := by
    rw [hcum1, hcum2]; ring
  refine ⟨htel, ?_, ?_⟩
  · rw [hbefore]
    have : 0 < neL - ne0 := by linarith
    positivity
  · rw [htel, hbefore]
    simp only [sub_self, abs_zero]
    have : 0 < neL - ne0 := by linarith
    positivity

/-- Witness for C1: a ten-unit flat spectrum rebinned onto a coarser grid
wholly inside it. -/
theorem rebin_flux_conserving_witness :
    totalFlux [2, 6] (rebin [0, 2, 4, 6, 8, 10]
        (List.replicate ([0, 2, 4, 6, 8, 10] : List ℚ).length (some 1)) [2, 6])
        = cumAt (edges [0, 2, 4, 6, 8, 10])
            (List.replicate ([0, 2, 4, 6, 8, 10] : List ℚ).length (some 1))
            ((edges [2, 6]).getLastD 0)
          - cumAt (edges [0, 2, 4, 6, 8, 10])
            (List.replicate ([0, 2, 4, 6, 8, 10] : List ℚ).length (some 1))
            ((edges [2, 6]).headD 0)
      ∧ 0 < cumAt (edges [0, 2, 4, 6, 8, 10])
            (List.replicate ([0, 2, 4, 6, 8, 10] : List ℚ).length (some 1))
            ((edges [2, 6]).getLastD 0)
          - cumAt (edges [0, 2, 4, 6, 8, 10])
            (List.replicate ([0, 2, 4, 6, 8, 10] : List ℚ).length (some 1))
            ((edges [2, 6]).headD 0)
      ∧ |totalFlux [2, 6] (rebin [0, 2, 4, 6, 8, 10]
            (List.replicate ([0, 2, 4, 6, 8, 10] : List ℚ).length (some 1)) [2, 6])
          - (cumAt (edges [0, 2, 4, 6, 8, 10])
              (List.replicate ([0, 2, 4, 6, 8, 10] : List ℚ).length (some 1))
              ((edges [2, 6]).getLastD 0)
            - cumAt (edges [0, 2, 4, 6, 8, 10])
              (List.replicate ([0, 2, 4, 6, 8, 10] : List ℚ).length (some 1))
              ((edges [2, 6]).headD 0))|
        < (1 / 1000)
          * (cumAt (edges [0, 2, 4, 6, 8, 10])
              (List.replicate ([0, 2, 4, 6, 8, 10] : List ℚ).length (some 1))
              ((edges [2, 6]).getLastD 0)
            - cumAt (edges [0, 2, 4, 6, 8, 10])
              (List.replicate ([0, 2, 4, 6, 8, 10] : List ℚ).length (some 1))
              ((edges [2, 6]).headD 0)) :=
  rebin_flux_conserving [0, 2, 4, 6, 8, 10] [2, 6] 1
    (by norm_num [List.chain'_cons, List.chain'_singleton])
    (by norm_num)
    (by norm_num [List.chain'_cons, List.chain'_singleton])
    (by norm_num)
    (by norm_num)
    (by norm_num [edges, innerEdges])
    (by norm_num [edges, innerEdges, List.getLastD_cons])

/-- Locality of the cumulative-flux difference: the integrated flux between
`a` and `b` depends only on the flux of the original pixels overlapping
`[a, b]`. -/
lemma cumAt_local (a b : ℚ) (hab : a ≤ b) :
    ∀ (es : List ℚ) (f g : List (Option ℚ)), f.length = g.length →
      (∀ p ∈ ((es.zip es.tail).zip (f.zip g)),
        p.1.2 ≤ a ∨ b ≤ p.1.1 ∨ p.2.1 = p.2.2) →
      cumAt es f b - cumAt es f a = cumAt es g b - cumAt es g a := by
  intro es
  induction es with
  | nil => intro f g _ _; simp [cumAt]
  | cons e1 rest ih =>
      cases rest with
      | nil => intro f g _ _; simp [cumAt]
      | cons e2 t =>
          intro f g hlen hyp
          cases f with
          | nil =>
              cases g with
              | nil => simp [cumAt_fnil]
              | cons y gs => simp at hlen
          | cons x fs =>
              cases g with
              | nil => simp at hlen
              | cons y gs =>
                  have hhead : e2 ≤ a ∨ b ≤ e1 ∨ x = y := by
                    have := hyp ((e1, e2), (x, y)) (by simp)
                    simpa using this
                  have htail : ∀ p ∈ (((e2 :: t).zip t).zip (fs.zip gs)),
                      p.1.2 ≤ a ∨ b ≤ p.1.1 ∨ p.2.1 = p.2.2 := by
                    intro p hp
                    refine hyp p ?_
                    simp only [List.tail_cons, List.zip_cons_cons]
                    exact List.mem_cons_of_mem _ hp
                  have ihe := ih fs gs (by simpa using hlen) htail
                  rw [cumAt_cons, cumAt_cons, cumAt_cons, cumAt_cons]
                  have hheadeq : x.getD 0 * max 0 (min b e2 - e1)
                      - x.getD 0 * max 0 (min a e2 - e1)
                      = y.getD 0 * max 0 (min b e2 - e1)
                        - y.getD 0 * max 0 (min a e2 - e1) := by
                    rcases hhead with h | h | h
                    · have hb : min b e2 = e2 := min_eq_right (le_trans h hab)
                      have ha : min a e2 = e2 := min_eq_right h
                      rw [hb, ha]; ring
                    · have hb' : min b e2 - e1 ≤ 0 := by
                        have := min_le_left b e2; linarith
                      have ha' : min a e2 - e1 ≤ 0 := by
                        have := min_le_left a e2; linarith
                      rw [max_eq_left hb', max_eq_left ha']; ring
                    · rw [h]
                  linarith [ihe, hheadeq]

/-- Zero weight of NaN pixels: the cumulative flux sees a `none` exactly as a
pixel of flux zero. -/
lemma cumAt_getD_map : ∀ (es : List ℚ) (f : List (Option ℚ)) (p : ℚ),
    cumAt es (f.map (fun v => some (v.getD 0))) p = cumAt es f p := by
  intro es
  induction es with
  | nil => intro f p; simp [cumAt]
  | cons e1 rest ih =>
      cases rest with
      | nil => intro f p; simp [cumAt]
      | cons e2 t =>
          intro f p
          cases f with
          | nil => simp [cumAt_fnil]
          | cons x fs =>
              simp only [List.map_cons]
              rw [cumAt_cons, cumAt_cons, ih fs p]
              simp

/-- Claim C8: `rebin` excludes NaN flux pixels from the flux integration —
a `none` enters with zero weight, identically to a zero-flux pixel, so the
output is always a number (NaN is never propagated) — and every rebinned
pixel whose coverage does not meet the NaN region has exactly the same value
as when rebinning the NaN-free input. -/
theorem rebin_nan_zero_weight :
    (∀ (w nw : List ℚ) (f g : List (Option ℚ)) (a b : ℚ),
      f.length = g.length → a ≤ b →
      (a, b) ∈ (edges nw).zip (edges nw).tail →
      (∀ p ∈ (((edges w).zip (edges w).tail).zip (f.zip g)),
        p.1.2 ≤ a ∨ b ≤ p.1.1 ∨ p.2.1 = p.2.2) →
      rebinAt (edges w) f a b = rebinAt (edges w) g a b) ∧
    (∀ (w nw : List ℚ) (f : List (Option ℚ)),
      rebin w (f.map (fun v => some (v.getD 0))) nw = rebin w f nw) := by
  constructor
  · intro w nw f g a b hlen hab hmem hagree
    have h := cumAt_local a b hab (edges w) f g hlen hagree
    rw [rebinAt, rebinAt, h]
  · intro w nw f
    unfold rebin rebinE
    refine List.map_congr_left (fun p _ => ?_)
    rw [rebinAt, rebinAt, cumAt_getD_map, cumAt_getD_map]

/-- Witness for C8: rebinning with the first three pixels NaN agrees, on a
new pixel covering only the clean region, with rebinning a NaN-free input. -/
theorem rebin_nan_zero_weight_witness :
    rebinAt (edges [0, 2, 4, 6]) [none, none, none, some 2] 5 7
      = rebinAt (edges [0, 2, 4, 6]) [some 1, some 2, some 3, some 2] 5 7 :=
  rebin_nan_zero_weight.1 [0, 2, 4, 6] [4, 6]
    [none, none, none, some 2] [some 1, some 2, some 3, some 2] 5 7
    (by norm_num)
    (by norm_num)
    (by norm_num [edges, innerEdges])
    (by norm_num [edges, innerEdges])

/-! ### Splicing two overlapping spectra (spec §4.5, tests `test_splice_two`,
`test_stitch`)

Modelled from the spec: `ltsu.splice_two` is not in the sources.  Per §4.5 it
produces one spectrum covering both wavelength ranges, preferring spectrum
A's pixels on overlap and appending spectrum B's unique (redward) coverage.
A pixel is a `(wavelength, flux)` pair. -/

/-- The operation `splice_two(spec_a, spec_b)`: all of A's pixels, then those pixels of B
lying redward of every pixel of A. -/
def splice_two (a b : List (ℚ × ℚ)) : List (ℚ × ℚ) :=
  a ++ b.filter (fun p => a.all (fun q => decide (q.1 < p.1)))

/-- Number of B pixels falling inside A's covered range (not redward of all
of A). -/
def overlap_count (a b : List (ℚ × ℚ)) : ℕ :=
  (b.filter (fun p => a.any (fun q => decide (p.1 ≤ q.1)))).length

lemma length_filter_not {α : Type} (p : α → Bool) :
    ∀ l : List α, (l.filter p).length + (l.filter (fun x => !(p x))).length
      = l.length := by
  intro l
  induction l with
  | nil => rfl
  | cons x t ih =>
      cases hpx : p x <;> simp [List.filter_cons, hpx, ← ih] <;> omega

/-- Claim C5: `splice_two(A, B)` returns one spectrum whose pixel count
equals `len(A) + len(B) - overlap_count`, with strictly increasing (hence
duplicate-free) wavelengths when both inputs are sorted, all of A's pixels
kept, and every output pixel lying in A's covered range taken from A
(A preferred on overlap). -/
theorem splice_two_spec (a b : List (ℚ × ℚ))
    (ha : (a.map Prod.fst).Chain' (· < ·))
    (hb : (b.map Prod.fst).Chain' (· < ·)) :
    (splice_two a b).length = a.length + b.length - overlap_count a b
    ∧ ((splice_two a b).map Prod.fst).Chain' (· < ·)
    ∧ ((splice_two a b).map Prod.fst).Nodup
    ∧ (∀ p ∈ splice_two a b, (∃ q ∈ a, p.1 ≤ q.1) → p ∈ a)
    ∧ (∀ q ∈ a, q ∈ splice_two a b) := by
  have hfe : b.filter (fun p => !(a.all (fun q => decide (q.1 < p.1))))
      = b.filter (fun p => a.any (fun q => decide (p.1 ≤ q.1))) := by
    apply List.filter_congr
    intro p _
    rw [Bool.eq_iff_iff]
    simp only [Bool.not_eq_true', List.all_eq_false, List.any_eq_true,
      decide_eq_true_eq, decide_eq_false_iff_not, not_lt]
  have hkeep : ∀ p ∈ b.filter (fun p => a.all (fun q => decide (q.1 < p.1))),
      p ∈ b ∧ ∀ q ∈ a, q.1 < p.1 := by
    intro p hp
    rw [List.mem_filter] at hp
    refine ⟨hp.1, ?_⟩
    intro q hq
    have := (List.all_eq_true.mp hp.2) q hq
    exact of_decide_eq_true this
  have hpair : ((splice_two a b).map Prod.fst).Pairwise (· < ·) := by
    rw [splice_two, List.map_append, List.pairwise_append]
    refine ⟨List.chain'_iff_pairwise.mp ha, ?_, ?_⟩
    · exact (List.chain'_iff_pairwise.mp hb).sublist
        ((b.filter_sublist).map Prod.fst)
    · intro x hx y hy
      obtain ⟨q, hq, hqx⟩ := List.mem_map.mp hx
      obtain ⟨p, hp, hpy⟩ := List.mem_map.mp hy
      obtain ⟨-, hall⟩ := hkeep p hp
      rw [← hqx, ← hpy]
      exact hall q hq
  refine ⟨?_, ?_, ?_, ?_, ?_⟩
  · rw [splice_two, List.length_append, overlap_count, ← hfe]
    have := length_filter_not (fun p => a.all (fun q => decide (q.1 < p.1))) b
    omega
  · exact List.chain'_iff_pairwise.mpr hpair
  · exact hpair.imp (fun h => ne_of_lt h)
  · intro p hp hin
    rcases List.mem_append.mp hp with h | h
    · exact h
    · obtain ⟨q, hq, hle⟩ := hin
      obtain ⟨-, hall⟩ := hkeep p h
      exact absurd (hall q hq) (not_lt.mpr hle)
  · intro q hq
    exact List.mem_append_left _ hq

/-- Witness for C5 at two concrete sorted, overlapping spectra. -/
theorem splice_two_spec_witness :
    (splice_two [(1, 10), (2, 20)] [(2, 30), (3, 40)]).length
        = 2 + 2 - overlap_count [(1, 10), (2, 20)] [(2, 30), (3, 40)]
    ∧ ((splice_two [(1, 10), (2, 20)] [(2, 30), (3, 40)]).map Prod.fst).Chain'
        (· < ·)
    ∧ ((splice_two [(1, 10), (2, 20)] [(2, 30), (3, 40)]).map Prod.fst).Nodup
    ∧ (∀ p ∈ splice_two [(1, 10), (2, 20)] [(2, 30), (3, 40)],
        (∃ q ∈ ([(1, 10), (2, 20)] : List (ℚ × ℚ)), p.1 ≤ q.1) →
          p ∈ ([(1, 10), (2, 20)] : List (ℚ × ℚ)))
    ∧ (∀ q ∈ ([(1, 10), (2, 20)] : List (ℚ × ℚ)),
        q ∈ splice_two [(1, 10), (2, 20)] [(2, 30), (3, 40)]) :=
  splice_two_spec [(1, 10), (2, 20)] [(2, 30), (3, 40)]
    (by norm_num [List.chain'_cons, List.chain'_singleton])
    (by norm_num [List.chain'_cons, List.chain'_singleton])


/-! ### Stacking a batch (spec §4.5, test `test_smash_spectra`) -/

/-- Combination method of `smash_spectra`. -/
inductive SmashMethod
  | average
  | median
  deriving DecidableEq

/-- The stated error for a batch without a common wavelength grid
(spec §7, `IncompatibleGrids`). -/
def incompatibleGridsMsg : String :=
  "IncompatibleGrids: spectra do not share a common wavelength grid"

/-- Does every spectrum of the batch share the first one's grid? -/
def commonGrid : List MSpec → Bool
  | [] => true
  | s :: rest => rest.all (fun t => decide (t.wave = s.wave))

/-- Per-pixel running sum of the batch's flux rows. -/
def sumFlux (batch : List MSpec) (n : ℕ) : List ℚ :=
  batch.foldl (fun acc s => List.zipWith (· + ·) acc s.flux)
    (List.replicate n 0)

/-- Sorted middle value(s), as `np.median` along the batch axis. -/
def smashMedian (vs : List ℚ) : ℚ :=
  let s := vs.mergeSort (fun a b => decide (a ≤ b))
  (s.getD ((vs.length - 1) / 2) 0 + s.getD (vs.length / 2) 0) / 2

/-- The common-grid combination step of `smash_spectra`. -/
def smashCommon (method : SmashMethod) (batch : List MSpec) :
    Except String MSpec :=
  match batch with
  | [] => .error "empty batch"
  | s :: rest =>
      match method with
      | .average =>
          .ok ⟨s.wave, (sumFlux (s :: rest) s.wave.length).map
            (fun v => v / (s :: rest).length)⟩
      | .median =>
          .ok ⟨s.wave, (List.range s.wave.length).map
            (fun k => smashMedian ((s :: rest).map (fun t => t.flux.getD k 0)))⟩

/-- Modelled from the spec: `ltsu.smash_spectra(batch, method)` is not in the
sources.  Per §4.5 it combines a batch sharing one common grid into a single
spectrum by per-pixel average or median and fails with a stated error if the
batch's spectra do not share a common grid. -/
def smash_spectra (method : SmashMethod) (batch : List MSpec) :
    Except String MSpec :=
  if commonGrid batch = false then .error incompatibleGridsMsg
  else smashCommon method batch

lemma commonGrid_eq_of_mem (batch : List MSpec) (hcg : commonGrid batch = true) :
    ∀ s ∈ batch, ∀ t ∈ batch, s.wave = t.wave := by
  cases batch with
  | nil => intro s hs; simp at hs
  | cons s0 rest =>
      have hall : ∀ t ∈ rest, t.wave = s0.wave := by
        intro t ht
        have := (List.all_eq_true.mp hcg) t ht
        exact of_decide_eq_true this
      intro s hs t ht
      have hsw : s.wave = s0.wave := by
        rcases List.mem_cons.mp hs with h | h
        · rw [h]
        · exact hall s h
      have htw : t.wave = s0.wave := by
        rcases List.mem_cons.mp ht with h | h
        · rw [h]
        · exact hall t h
      rw [hsw, htw]

lemma foldl_zipWith_length :
    ∀ (l : List MSpec) (acc : List ℚ), (∀ s ∈ l, s.flux.length = acc.length) →
      (l.foldl (fun acc s => List.zipWith (· + ·) acc s.flux) acc).length
        = acc.length := by
  intro l
  induction l with
  | nil => intro acc _; rfl
  | cons s t ih =>
      intro acc hl
      rw [List.foldl_cons]
      have hz : (List.zipWith (· + ·) acc s.flux).length = acc.length := by
        rw [List.length_zipWith, hl s (List.mem_cons_self s t), min_self]
      rw [ih _ (by intro u hu; rw [hz]; exact hl u (List.mem_cons_of_mem s hu)), hz]

lemma sumFlux_length (batch : List MSpec) (n : ℕ)
    (h : ∀ s ∈ batch, s.flux.length = n) : (sumFlux batch n).length = n := by
  rw [sumFlux, foldl_zipWith_length batch _ (by simpa using h)]
  simp

lemma sumFlux_getD (n : ℕ) :
    ∀ (batch : List MSpec) (acc : List ℚ), acc.length = n →
      (∀ s ∈ batch, s.flux.length = n) →
      ∀ k < n,
        (batch.foldl (fun acc s => List.zipWith (· + ·) acc s.flux) acc).getD k 0
          = acc.getD k 0 + (batch.map (fun s => s.flux.getD k 0)).sum := by
  intro batch
  induction batch with
  | nil => intro acc _ _ k _; simp
  | cons s rest ih =>
      intro acc hacc hlen k hk
      have hs : s.flux.length = n := hlen s (List.mem_cons_self s rest)
      have hzip : (List.zipWith (· + ·) acc s.flux).length = n := by
        rw [List.length_zipWith, hacc, hs, min_self]
      have hrest : ∀ t ∈ rest, t.flux.length = n := by
        intro t ht; exact hlen t (List.mem_cons_of_mem s ht)
      rw [List.foldl_cons, ih (List.zipWith (· + ·) acc s.flux) hzip hrest k hk]
      have hget : (List.zipWith (· + ·) acc s.flux).getD k 0
          = acc.getD k 0 + s.flux.getD k 0 := by
        have hk1 : k < acc.length := by omega
        have hk2 : k < s.flux.length := by omega
        have hk3 : k < (List.zipWith (· + ·) acc s.flux).length := by omega
        rw [List.getD_eq_getElem _ _ hk3, List.getD_eq_getElem _ _ hk1,
          List.getD_eq_getElem _ _ hk2]
        exact List.getElem_zipWith
      rw [hget, List.map_cons, List.sum_cons]
      ring

/-- Claim C2: `smash_spectra` on a batch whose spectra do not all share one
wavelength grid fails with the stated `IncompatibleGrids` error (it never
silently averages); with `method='average'` on a common-grid batch it returns
one spectrum whose pixel count equals the common grid length and whose flux
is the per-pixel arithmetic mean across the batch. -/
theorem smash_spectra_spec :
    (∀ batch : List MSpec, (∃ s ∈ batch, ∃ t ∈ batch, s.wave ≠ t.wave) →
      smash_spectra .average batch = .error incompatibleGridsMsg) ∧
    (∀ (batch : List MSpec) (w : List ℚ), batch ≠ [] →
      (∀ s ∈ batch, s.wave = w) → (∀ s ∈ batch, s.flux.length = w.length) →
      ∃ out, smash_spectra .average batch = .ok out ∧
        out.wave = w ∧ out.flux.length = w.length ∧
        ∀ k < w.length, out.flux.getD k 0
          = (batch.map (fun s => s.flux.getD k 0)).sum / batch.length) := by
  constructor
  · intro batch ⟨s, hs, t, ht, hne⟩
    have hcg : commonGrid batch = false := by
      cases hcgt : commonGrid batch with
      | false => rfl
      | true => exact absurd (commonGrid_eq_of_mem batch hcgt s hs t ht) hne
    rw [smash_spectra, if_pos hcg]
  · intro batch w hne hw hf
    have hcg : ¬ (commonGrid batch = false) := by
      cases batch with
      | nil => exact absurd rfl hne
      | cons s0 rest =>
          simp only [commonGrid, Bool.not_eq_false, List.all_eq_true]
          intro t ht
          refine decide_eq_true ?_
          rw [hw t (List.mem_cons_of_mem s0 ht), hw s0 (List.mem_cons_self s0 rest)]
    cases batch with
    | nil => exact absurd rfl hne
    | cons s0 rest =>
        have hw0 : s0.wave = w := hw s0 (List.mem_cons_self s0 rest)
        have hfn : ∀ s ∈ s0 :: rest, s.flux.length = s0.wave.length := by
          intro s hs; rw [hw0]; exact hf s hs
        have hsum : (sumFlux (s0 :: rest) s0.wave.length).length
            = s0.wave.length := sumFlux_length _ _ hfn
        refine ⟨⟨s0.wave, (sumFlux (s0 :: rest) s0.wave.length).map
            (fun v => v / (s0 :: rest).length)⟩,
          by rw [smash_spectra, if_neg hcg]; rfl, hw0, ?_, ?_⟩
        · show (List.map _ _).length = _
          rw [List.length_map, hsum, hw0]
        · intro k hk
          have hkr : k < s0.wave.length := by rw [hw0]; exact hk
          have hkm : k < ((sumFlux (s0 :: rest) s0.wave.length).map
              (fun v => v / ((s0 :: rest).length : ℚ))).length := by
            rw [List.length_map, hsum]; exact hkr
          have hks : k < (sumFlux (s0 :: rest) s0.wave.length).length := by
            rw [hsum]; exact hkr
          show (List.map _ _).getD k 0 = _
          rw [List.getD_eq_getElem _ _ hkm, List.getElem_map,
            ← List.getD_eq_getElem _ _ hks]
          have hget := sumFlux_getD s0.wave.length (s0 :: rest)
            (List.replicate s0.wave.length 0) (by simp) hfn k hkr
          unfold sumFlux
          rw [hget]
          have hz : (List.replicate s0.wave.length (0 : ℚ)).getD k 0 = 0 := by
            simp [List.getD]
          rw [hz, zero_add]

/-- Witness for C2: a two-spectrum batch with incompatible grids errors, and
a common-grid batch averages per pixel. -/
theorem smash_spectra_spec_witness :
    smash_spectra .average [⟨[1, 2], [5, 6]⟩, ⟨[1, 3], [7, 8]⟩]
        = .error incompatibleGridsMsg
    ∧ ∃ out, smash_spectra .average [⟨[1, 2], [5, 6]⟩, ⟨[1, 2], [7, 9]⟩]
        = .ok out ∧ out.wave = [1, 2] ∧ out.flux.length = 2 ∧
        ∀ k < ([1, 2] : List ℚ).length, out.flux.getD k 0
          = (([⟨[1, 2], [5, 6]⟩, ⟨[1, 2], [7, 9]⟩] : List MSpec).map
              (fun s => s.flux.getD k 0)).sum
            / ([⟨[1, 2], [5, 6]⟩, ⟨[1, 2], [7, 9]⟩] : List MSpec).length := by
  constructor
  · exact smash_spectra_spec.1 [⟨[1, 2], [5, 6]⟩, ⟨[1, 3], [7, 8]⟩]
      ⟨⟨[1, 2], [5, 6]⟩, by simp, ⟨[1, 3], [7, 8]⟩, by simp, by decide⟩
  · have h := smash_spectra_spec.2 [⟨[1, 2], [5, 6]⟩, ⟨[1, 2], [7, 9]⟩] [1, 2]
      (by simp) (by decide) (by decide)
    simpa using h

/-! ### Air ↔ vacuum wavelength conversion (spec §4.1, §8,
test `test_airtovac_andback`)

Modelled from the spec: `XSpectrum1D.airtovac`/`vactoair` are not in the
sources.  Per §4.1 they convert the wavelength array between reference
frames, toggle `meta['airvac']`, no-op when already in the requested frame,
and must round-trip to floating tolerance.  The conversion factor is the
standard Edlén air refraction index as a function of the squared wavenumber
`sigma2 = (1e4/λ)²`, applied for `λ ≥ 2000` Å, which reproduces the test
fixture of `test_airtovac_andback` (5000 Å air → 5001.394869990007 Å vacuum)
exactly to all quoted digits. -/

/-- Squared wavenumber `(1e4 / wavelength)**2` of a wavelength in Å. -/
def sigma2 (lam : ℚ) : ℚ := (10000 / lam) ^ 2

/-- Edlén air refraction factor
`1 + 5.792105e-2/(238.0185 - sigma2) + 1.67918e-3/(57.362 - sigma2)`. -/
def refracFac (s : ℚ) : ℚ :=
  1 + (5792105 / 100000000) / (2380185 / 10000 - s)
    + (167918 / 100000000) / (57362 / 1000 - s)

/-- One pixel of `airtovac`: multiply by the refraction factor evaluated at
the air wavelength, for wavelengths of at least 2000 Å. -/
def airtovac1 (lam : ℚ) : ℚ :=
  if 2000 ≤ lam then lam * refracFac (sigma2 lam) else lam

/-- One pixel of `vactoair`: divide by the refraction factor evaluated at
the vacuum wavelength, for wavelengths of at least 2000 Å. -/
def vactoair1 (lam : ℚ) : ℚ :=
  if 2000 ≤ lam then lam / refracFac (sigma2 lam) else lam

/-- The wavelength frame stored in `meta['airvac']`. -/
inductive Frame
  | air
  | vac
  deriving DecidableEq

/-- A spectrum as seen by the frame conversions: wavelength array plus the
`meta['airvac']` entry. -/
structure WSpec where
  wave : List ℚ
  airvac : Frame
  deriving DecidableEq

/-- The method `airtovac()`: no-op (with a warning) when already in vacuum, else convert
every pixel and set `meta['airvac'] = 'vac'`. -/
def airtovac (s : WSpec) : WSpec :=
  match s.airvac with
  | .vac => s
  | .air => ⟨s.wave.map airtovac1, .vac⟩

/-- The method `vactoair()`: no-op (with a warning) when already in air, else convert
every pixel and set `meta['airvac'] = 'air'`. -/
def vactoair (s : WSpec) : WSpec :=
  match s.airvac with
  | .air => s
  | .vac => ⟨s.wave.map vactoair1, .air⟩

lemma refracFac_gt_one (s : ℚ) (h0 : 0 < s) (h25 : s ≤ 25) : 1 < refracFac s := by
  have hd1 : (0 : ℚ) < 2380185 / 10000 - s := by linarith
  have hd2 : (0 : ℚ) < 57362 / 1000 - s := by linarith
  have h1 : (0 : ℚ) < (5792105 / 100000000) / (2380185 / 10000 - s) :=
    div_pos (by norm_num) hd1
  have h2 : (0 : ℚ) < (167918 / 100000000) / (57362 / 1000 - s) :=
    div_pos (by norm_num) hd2
  rw [refracFac]
  linarith

lemma refracFac_le (s : ℚ) (h0 : 0 < s) (h25 : s ≤ 25) :
    refracFac s ≤ 1 + 33 / 100000 := by
  have hd1 : (0 : ℚ) < 2380185 / 10000 - 25 := by norm_num
  have hd2 : (0 : ℚ) < 57362 / 1000 - 25 := by norm_num
  have h1 : (5792105 / 100000000 : ℚ) / (2380185 / 10000 - s)
      ≤ (5792105 / 100000000) / (2380185 / 10000 - 25) :=
    div_le_div_of_nonneg_left (by norm_num) hd1 (by linarith)
  have h2 : (167918 / 100000000 : ℚ) / (57362 / 1000 - s)
      ≤ (167918 / 100000000) / (57362 / 1000 - 25) :=
    div_le_div_of_nonneg_left (by norm_num) hd2 (by linarith)
  have hnum : (5792105 / 100000000 : ℚ) / (2380185 / 10000 - 25)
      + (167918 / 100000000) / (57362 / 1000 - 25) ≤ 33 / 100000 := by
    norm_num
  rw [refracFac]
  linarith

lemma refracFac_mono (s' s : ℚ) (h0 : 0 < s') (hss : s' ≤ s) (h25 : s ≤ 25) :
    refracFac s' ≤ refracFac s := by
  have hd1 : (0 : ℚ) < 2380185 / 10000 - s := by linarith
  have hd2 : (0 : ℚ) < 57362 / 1000 - s := by linarith
  have h1 : (5792105 / 100000000 : ℚ) / (2380185 / 10000 - s')
      ≤ (5792105 / 100000000) / (2380185 / 10000 - s) :=
    div_le_div_of_nonneg_left (by norm_num) hd1 (by linarith)
  have h2 : (167918 / 100000000 : ℚ) / (57362 / 1000 - s')
      ≤ (167918 / 100000000) / (57362 / 1000 - s) :=
    div_le_div_of_nonneg_left (by norm_num) hd2 (by linarith)
  rw [refracFac, refracFac]
  linarith

lemma refracFac_lip (s' s : ℚ) (h0 : 0 < s') (hss : s' ≤ s) (h25 : s ≤ 25) :
    refracFac s - refracFac s' ≤ 3 / 1000000 * (s - s') := by
  have hd1 : (0 : ℚ) < 2380185 / 10000 - s := by linarith
  have hd1' : (0 : ℚ) < 2380185 / 10000 - s' := by linarith
  have hd2 : (0 : ℚ) < 57362 / 1000 - s := by linarith
  have hd2' : (0 : ℚ) < 57362 / 1000 - s' := by linarith
  have e1 : (5792105 / 100000000 : ℚ) / (2380185 / 10000 - s)
      - (5792105 / 100000000) / (2380185 / 10000 - s')
      = (5792105 / 100000000) * (s - s')
        / ((2380185 / 10000 - s) * (2380185 / 10000 - s')) := by
    rw [div_sub_div _ _ (ne_of_gt hd1) (ne_of_gt hd1')]
    congr 1
    ring
  have e2 : (167918 / 100000000 : ℚ) / (57362 / 1000 - s)
      - (167918 / 100000000) / (57362 / 1000 - s')
      = (167918 / 100000000) * (s - s')
        / ((57362 / 1000 - s) * (57362 / 1000 - s')) := by
    rw [div_sub_div _ _ (ne_of_gt hd2) (ne_of_gt hd2')]
    congr 1
    ring
  have hp1 : (213 * 213 : ℚ) ≤ (2380185 / 10000 - s) * (2380185 / 10000 - s') :=
    mul_le_mul (by linarith) (by linarith) (by norm_num) (by linarith)
  have hp2 : (32 * 32 : ℚ) ≤ (57362 / 1000 - s) * (57362 / 1000 - s') :=
    mul_le_mul (by linarith) (by linarith) (by norm_num) (by linarith)
  have hb1 : (5792105 / 100000000 : ℚ) * (s - s')
      / ((2380185 / 10000 - s) * (2380185 / 10000 - s'))
      ≤ (5792105 / 100000000) * (s - s') / (213 * 213) :=
    div_le_div_of_nonneg_left (by nlinarith) (by norm_num) hp1
  have hb2 : (167918 / 100000000 : ℚ) * (s - s')
      / ((57362 / 1000 - s) * (57362 / 1000 - s'))
      ≤ (167918 / 100000000) * (s - s') / (32 * 32) :=
    div_le_div_of_nonneg_left (by nlinarith) (by norm_num) hp2
  rw [refracFac, refracFac]
  have hfin : (5792105 / 100000000 : ℚ) * (s - s') / (213 * 213)
      + (167918 / 100000000) * (s - s') / (32 * 32)
      ≤ 3 / 1000000 * (s - s') := by
    have h : (0 : ℚ) ≤ s - s' := by linarith
    rw [div_eq_mul_inv, div_eq_mul_inv]
    nlinarith
  linarith

/-- Round trip of one pixel: the air → vacuum → air conversion moves a
positive wavelength by at most one part in 10⁶ (and never decreases it). -/
lemma roundtrip_close (lam : ℚ) (hl : 0 < lam) :
    lam ≤ vactoair1 (airtovac1 lam) ∧
    vactoair1 (airtovac1 lam) - lam ≤ lam * (1 / 1000000) := by
  rcases lt_or_le lam 2000 with h2000 | h2000
  · have ha : airtovac1 lam = lam := if_neg (by linarith)
    have hv : vactoair1 lam = lam := if_neg (by linarith)
    rw [ha, hv]
    constructor
    · linarith
    · nlinarith
  · have hs0 : 0 < sigma2 lam := by
      rw [sigma2]
      positivity
    have hs25 : sigma2 lam ≤ 25 := by
      have h1 : 10000 / lam ≤ 5 := by
        rw [div_le_iff hl]
        linarith
      have h2 : 0 < 10000 / lam := by positivity
      rw [sigma2]
      nlinarith
    have hg1 : 1 < refracFac (sigma2 lam) := refracFac_gt_one _ hs0 hs25
    have hgU : refracFac (sigma2 lam) ≤ 1 + 33 / 100000 := refracFac_le _ hs0 hs25
    have hmu : airtovac1 lam = lam * refracFac (sigma2 lam) := if_pos h2000
    have hmupos : 0 < lam * refracFac (sigma2 lam) := by nlinarith
    have hmuge : lam ≤ lam * refracFac (sigma2 lam) := by nlinarith
    have hmu2000 : (2000 : ℚ) ≤ lam * refracFac (sigma2 lam) := by linarith
    have hs'0 : 0 < sigma2 (lam * refracFac (sigma2 lam)) := by
      rw [sigma2]
      positivity
    have hs's : sigma2 (lam * refracFac (sigma2 lam)) ≤ sigma2 lam := by
      have hda : 10000 / (lam * refracFac (sigma2 lam)) ≤ 10000 / lam :=
        div_le_div_of_nonneg_left (by norm_num) hl hmuge
      have hdp : 0 < 10000 / (lam * refracFac (sigma2 lam)) := by positivity
      show (10000 / (lam * refracFac (sigma2 lam))) ^ 2 ≤ (10000 / lam) ^ 2
      exact pow_le_pow_left (le_of_lt hdp) hda 2
    have hfact : sigma2 (lam * refracFac (sigma2 lam))
        = sigma2 lam / refracFac (sigma2 lam) ^ 2 := by
      rw [sigma2, sigma2]
      have hgne : refracFac (sigma2 lam) ≠ 0 := by
        rw [sigma2]
        positivity
      field_simp
      ring
    have hss' : sigma2 lam - sigma2 (lam * refracFac (sigma2 lam)) ≤ 17 / 1000 := by
      rw [hfact]
      have hgsq : (0 : ℚ) < refracFac (sigma2 lam) ^ 2 := by positivity
      have key : sigma2 lam * (refracFac (sigma2 lam) ^ 2 - 1)
          ≤ 17 / 1000 * refracFac (sigma2 lam) ^ 2 := by
        have hg2ge1 : 1 ≤ refracFac (sigma2 lam) ^ 2 := by nlinarith
        have hg2le : refracFac (sigma2 lam) ^ 2 ≤ (1 + 33 / 100000) ^ 2 := by
          nlinarith
        have h1 : sigma2 lam * (refracFac (sigma2 lam) ^ 2 - 1)
            ≤ 25 * (refracFac (sigma2 lam) ^ 2 - 1) := by nlinarith
        have h2 : (25 : ℚ) * (refracFac (sigma2 lam) ^ 2 - 1)
            ≤ 25 * ((1 + 33 / 100000) ^ 2 - 1) := by nlinarith
        have h3 : (25 : ℚ) * ((1 + 33 / 100000) ^ 2 - 1) ≤ 17 / 1000 := by
          norm_num
        linarith
      have e : sigma2 lam - sigma2 lam / refracFac (sigma2 lam) ^ 2
          = sigma2 lam * (refracFac (sigma2 lam) ^ 2 - 1)
            / refracFac (sigma2 lam) ^ 2 := by
        field_simp
        ring
      rw [e]
      calc sigma2 lam * (refracFac (sigma2 lam) ^ 2 - 1) / refracFac (sigma2 lam) ^ 2
          ≤ 17 / 1000 * refracFac (sigma2 lam) ^ 2 / refracFac (sigma2 lam) ^ 2 :=
            (div_le_div_iff_of_pos_right hgsq).mpr key
        _ = 17 / 1000 := by
            field_simp
            ring
    have hg'1 : 1 < refracFac (sigma2 (lam * refracFac (sigma2 lam))) :=
      refracFac_gt_one _ hs'0 (le_trans hs's hs25)
    have hgmono : refracFac (sigma2 (lam * refracFac (sigma2 lam)))
        ≤ refracFac (sigma2 lam) :=
      refracFac_mono _ _ hs'0 hs's hs25
    have hlip : refracFac (sigma2 lam)
        - refracFac (sigma2 (lam * refracFac (sigma2 lam)))
        ≤ 3 / 1000000
          * (sigma2 lam - sigma2 (lam * refracFac (sigma2 lam))) :=
      refracFac_lip _ _ hs'0 hs's hs25
    have hdelta : refracFac (sigma2 lam)
        - refracFac (sigma2 (lam * refracFac (sigma2 lam)))
        ≤ 51 / 1000000000 := by
      nlinarith
    have hres : vactoair1 (airtovac1 lam)
        = lam * refracFac (sigma2 lam)
          / refracFac (sigma2 (lam * refracFac (sigma2 lam))) := by
      rw [hmu, vactoair1, if_pos hmu2000]
    rw [hres]
    have hg'pos : 0 < refracFac (sigma2 (lam * refracFac (sigma2 lam))) := by
      linarith
    constructor
    · rw [le_div_iff hg'pos]
      nlinarith
    · have hnum : 0 ≤ lam * (refracFac (sigma2 lam)
          - refracFac (sigma2 (lam * refracFac (sigma2 lam)))) := by
        nlinarith
      have e2 : lam * refracFac (sigma2 lam)
            / refracFac (sigma2 (lam * refracFac (sigma2 lam))) - lam
          = lam * (refracFac (sigma2 lam)
              - refracFac (sigma2 (lam * refracFac (sigma2 lam))))
            / refracFac (sigma2 (lam * refracFac (sigma2 lam))) := by
        field_simp
        ring
      rw [e2]
      calc lam * (refracFac (sigma2 lam)
            - refracFac (sigma2 (lam * refracFac (sigma2 lam))))
            / refracFac (sigma2 (lam * refracFac (sigma2 lam)))
          ≤ lam * (refracFac (sigma2 lam)
            - refracFac (sigma2 (lam * refracFac (sigma2 lam)))) :=
            div_le_self hnum (by linarith)
        _ ≤ lam * (51 / 1000000000) :=
            mul_le_mul_of_nonneg_left hdelta (le_of_lt hl)
        _ ≤ lam * (1 / 1000000) :=
            mul_le_mul_of_nonneg_left (by norm_num) (le_of_lt hl)

/-- Claim C3: for every wavelength array of positive wavelengths, applying
`airtovac` and then `vactoair` to an air-frame spectrum restores each
original wavelength to within 1e-6 relative tolerance, and the conversions
toggle `meta['airvac']` from `'air'` to `'vac'` and back to `'air'`. -/
theorem airtovac_vactoair_roundtrip (s : WSpec)
    (hair : s.airvac = .air)
    (hpos : ∀ lam ∈ s.wave, 0 < lam) :
    (airtovac s).airvac = .vac ∧
    (vactoair (airtovac s)).airvac = .air ∧
    (vactoair (airtovac s)).wave.length = s.wave.length ∧
    List.Forall₂ (fun r orig => |r - orig| ≤ orig * (1 / 1000000))
      (vactoair (airtovac s)).wave s.wave := by
  have h1 : airtovac s = ⟨s.wave.map airtovac1, .vac⟩ := by
    rw [airtovac, hair]
  have h2 : vactoair (airtovac s)
      = ⟨(s.wave.map airtovac1).map vactoair1, .air⟩ := by
    rw [h1, vactoair]
  refine ⟨by rw [h1], by rw [h2], by rw [h2]; simp, ?_⟩
  rw [h2]
  simp only [List.map_map]
  rw [List.forall₂_map_left_iff]
  rw [List.forall₂_same]
  intro lam hlam
  obtain ⟨hge, hle⟩ := roundtrip_close lam (hpos lam hlam)
  rw [Function.comp_apply, abs_sub_le_iff]
  constructor
  · exact hle
  · have : 0 < lam := hpos lam hlam
    nlinarith

/-- Witness for C3: the round trip at the 1000-pixel grid of
`test_airtovac_andback` truncated to its two endpoint wavelengths. -/
theorem airtovac_vactoair_roundtrip_witness :
    (airtovac ⟨[5000, 6000], .air⟩).airvac = .vac ∧
    (vactoair (airtovac ⟨[5000, 6000], .air⟩)).airvac = .air ∧
    (vactoair (airtovac ⟨[5000, 6000], .air⟩)).wave.length
      = ([5000, 6000] : List ℚ).length ∧
    List.Forall₂ (fun r orig => |r - orig| ≤ orig * (1 / 1000000))
      (vactoair (airtovac ⟨[5000, 6000], .air⟩)).wave [5000, 6000] :=
  airtovac_vactoair_roundtrip ⟨[5000, 6000], .air⟩ rfl
    (by
      intro lam h
      simp only [List.mem_cons, List.mem_singleton, List.not_mem_nil,
        or_false] at h
      rcases h with h | h <;> rw [h] <;> norm_num)

/-- Counterexample to C3's "or vice versa" direction: on a vacuum-frame
spectrum at 2000 Å, `vactoair` applies the refraction correction (the vacuum
wavelength reaches the 2000 Å activation threshold) but the resulting air
wavelength falls below 2000 Å, so the subsequent `airtovac` leaves it
unchanged: the reverse round trip moves the wavelength by about 3.2e-4
relative, far beyond the 1e-6 tolerance. -/
theorem vactoair_airtovac_roundtrip_counterexample :
    ¬ List.Forall₂ (fun r orig => |r - orig| ≤ orig * (1 / 1000000))
      (airtovac (vactoair ⟨[2000], .vac⟩)).wave [2000] := by
  intro h
  have h1 : (airtovac (vactoair ⟨[2000], .vac⟩)).wave
      = [airtovac1 (vactoair1 2000)] := rfl
  rw [h1] at h
  have h2 := List.forall₂_cons.mp h
  have h3 : |airtovac1 (vactoair1 2000) - 2000| ≤ 2000 * (1 / 1000000) := h2.1
  have hv : vactoair1 2000 = 2000 / refracFac 25 := by
    rw [vactoair1, if_pos (by norm_num)]
    norm_num [sigma2]
  have hfval : refracFac 25 = 1 + (5792105 / 100000000) / (2130185 / 10000)
      + (167918 / 100000000) / (32362 / 1000) := by
    rw [refracFac]
    norm_num
  have hlt : vactoair1 2000 < 2000 := by
    rw [hv, hfval]
    rw [div_lt_iff (by norm_num)]
    norm_num
  have ha : airtovac1 (vactoair1 2000) = vactoair1 2000 := by
    rw [airtovac1, if_neg (by linarith)]
  rw [ha, hv, hfval] at h3
  rw [abs_le] at h3
  have h4 := h3.1
  rw [le_sub_iff_add_le, le_div_iff (by norm_num)] at h4
  norm_num at h4

end Linetools
